import Mathlib

/-!
Shallow embedding of the backup-sizing and retention-rotation logic of
`mars.go` (mysql-backup-golang).  Pure decision logic is translated to Lean
functions; the batching loop is modelled with explicit fuel (the Go loop may
not terminate when `BatchSize <= 0`); the filesystem walked by `ListFiles`
and rotated by `BackupRotation` is modelled as a finite directory tree.
-/

namespace Mars

/-! ## Sizing decision (`main`, mars.go lines 78-98) -/

/-- The three dump strategies a database can be processed with. -/
inductive SizingDecision where
  | SingleFile
  | SplitSchemaData
  | PerTableBatched
  deriving DecidableEq

/-- The per-database dispatch of `main` (mars.go 78-98): the if / else-if /
else-if chain on `options.ForceSplit` and `totalRowCount` versus
`options.DatabaseRowCountTreshold`.  `none` models the (unreachable) case in
which no branch fires and the database is skipped. -/
def plan (forceSplit : Bool) (totalRowCount dbThreshold : Int) : Option SizingDecision :=
  if !forceSplit && decide (totalRowCount ≤ dbThreshold) then
    some .SingleFile
  else if forceSplit && decide (totalRowCount ≤ dbThreshold) then
    some .SplitSchemaData
  else if decide (totalRowCount > dbThreshold) then
    some .PerTableBatched
  else
    none

/-! ## Deduplication (`removeDuplicates`, mars.go 228-245) -/

/-- Loop body of `removeDuplicates`: `seen` models the `encountered` map
(membership in the list models membership in the Go map). -/
def removeDuplicatesAux (seen : List String) : List String → List String
  | [] => []
  | x :: xs =>
    if x ∈ seen then
      removeDuplicatesAux seen xs
    else
      x :: removeDuplicatesAux (x :: seen) xs

/-- `removeDuplicates` (mars.go 228-245): keeps the first occurrence of each
element, in encounter order. -/
def removeDuplicates (elements : List String) : List String :=
  removeDuplicatesAux [] elements

/-- Spec-side reading of deduplication ("keeps exactly the first occurrence of
each name and preserves first-seen order"): keep the head, erase its later
occurrences, recurse. -/
def keepFirstOccurrences : List String → List String
  | [] => []
  | x :: xs => x :: keepFirstOccurrences (xs.filter (fun y => y ≠ x))
  termination_by l => l.length
  decreasing_by
    simp only [List.length_cons]
    exact Nat.lt_succ_of_le (xs.length_filter_le _)

/-! ## Set difference (`difference`, mars.go 248-260) -/

/-- `difference` (mars.go 248-260): elements of `a` that are not in `b`
(the Go map `mb` is modelled by list membership). -/
def difference (a b : List String) : List String :=
  a.filter (fun x => !b.contains x)

/-- The all-databases branch of `NewOptions` (mars.go 185-203): the user
exclusion string, with `",information_schema,performance_schema"` appended,
is split on commas and deduplicated, and the server database list is filtered
against it.  The comma-split exclusion string is modelled by the list
`userExcluded` of its comma-separated fields (an empty `-excluded-databases`
flag splits to `[""]`). -/
def resolveAllDatabases (serverDbs userExcluded : List String) : List String :=
  difference serverDbs
    (removeDuplicates (userExcluded ++ ["information_schema", "performance_schema"]))

/-! ## Batching loop (`generateTableBackup`, mars.go 262-338) -/

/-- The batching loop of `generateTableBackup` (mars.go 266-335):
`for counter := 0; counter <= table.RowCount; counter += options.BatchSize`,
one dump invocation per iteration, at row offset `counter`.  The loop is
modelled with explicit fuel: `none` means the fuel ran out before the loop
exited (in particular, a non-terminating loop yields `none` for every fuel);
`some offsets` lists the row offsets of the windows dumped, in order. -/
def generateTableBackupLoop : Nat → Int → Int → Int → Option (List Int)
  | 0, _, _, _ => none
  | fuel + 1, batchSize, rowCount, counter =>
    if counter ≤ rowCount then
      (generateTableBackupLoop fuel batchSize rowCount (counter + batchSize)).map
        (fun l => counter :: l)
    else
      some []

/-! ## Filesystem model (`ListFiles`, `CopyDir`, `BackupRotation`, mars.go 588-728) -/

/-- A node of the local filesystem: a plain file, or a directory with its
children. -/
inductive FTree where
  | file (name : String)
  | dir (name : String) (children : List FTree)

/-- Name of a filesystem node. -/
def FTree.name : FTree → String
  | .file n => n
  | .dir n _ => n

mutual

/-- The paths visited by `filepath.Walk` from a node whose full path is `p`:
the node's own path first, then every entry below it, a child's path being
`parent ++ "/" ++ name`. -/
def walkPaths (p : String) : FTree → List String
  | .file _ => [p]
  | .dir _ children => p :: walkPathsList p children

/-- Walk a list of children of the directory with full path `p`. -/
def walkPathsList (p : String) : List FTree → List String
  | [] => []
  | c :: cs => walkPaths (p ++ "/" ++ c.name) c ++ walkPathsList p cs

end

/-- `ListFiles` (mars.go 588-597): collect every walked path whose full path
differs from the bare strings `"daily"`, `"weekly"` and `"monthly"`.
`tree = none` models a `searchDir` that does not exist: `filepath.Walk` then
invokes the callback once, on `searchDir` itself, with an error the callback
ignores (it returns `nil` and still appends the path). -/
def ListFiles (searchDir : String) (tree : Option FTree) : List String :=
  (match tree with
   | none => [searchDir]
   | some t => walkPaths searchDir t).filter
    (fun p => !(p == "daily") && !(p == "weekly") && !(p == "monthly"))

/-- State of the rotation-relevant part of the output directory: the children
of `{outputDir}/daily`, `{outputDir}/weekly` and `{outputDir}/monthly`.
`GetOptions` creates the three tier directories at startup
(mars.go 804-807). -/
structure BackupFS where
  daily : List FTree
  weekly : List FTree
  monthly : List FTree

/-- Child of a directory with the given name, if any. -/
def findChild (children : List FTree) (name : String) : Option FTree :=
  children.find? (fun c => c.name == name)

/-- `CopyDir src dst` (mars.go 675-728) as invoked by `BackupRotation`: the
directory `{outputDir}/daily/{today}` is copied recursively as a new child
`{today}` of the monthly tier.  It fails, leaving the tree unchanged (the
caller ignores the returned error), when the source is missing or not a
directory, or when the destination already exists.  Symlinks do not occur in
the model, so a successful copy duplicates the subtree unchanged. -/
def copyDailyIntoMonthly (fs : BackupFS) (today : String) : BackupFS :=
  match findChild fs.daily today with
  | some (FTree.dir n children) =>
    if (findChild fs.monthly today).isSome then fs
    else { fs with monthly := fs.monthly ++ [FTree.dir n children] }
  | _ => fs

/-- `BackupRotation` (mars.go 600-626).  Monthly branch: when
`MontlyRotation > 0` and `ListFiles` of the monthly tier path returns an
empty list, the day's daily snapshot is copied into the monthly tier.  The
weekly and daily branches (mars.go 613-625) compute `ListFiles` and test
emptiness but their bodies are empty, so they change nothing. -/
def BackupRotation (montlyRotation weeklyRotation dailyRotation : Int)
    (outputDir today : String) (fs : BackupFS) : BackupFS :=
  let fs1 :=
    if 0 < montlyRotation then
      let month := ListFiles (outputDir ++ "/monthly") (some (FTree.dir "monthly" fs.monthly))
      if month.length = 0 then copyDailyIntoMonthly fs today else fs
    else fs
  let _week :=
    if 0 < weeklyRotation then
      (ListFiles (outputDir ++ "/weekly") (some (FTree.dir "weekly" fs1.weekly))).length == 0
    else false
  let _day :=
    if 0 < dailyRotation then
      (ListFiles (outputDir ++ "/daily") (some (FTree.dir "daily" fs1.daily))).length == 0
    else false
  fs1

/-! ## Fatal-error handling (`generateTableBackup` 306-332, `GetOptions` 800-803) -/

/-- The externally observable outcome of one dump invocation and its
archiving: the text the dump command wrote to stderr, whether the `.tar.gz`
output file could be created, and whether compressing into it succeeded. -/
structure BatchOutcome where
  stderr : String
  createOk : Bool
  compressOk : Bool

/-- One iteration of `generateTableBackup`'s loop after the dump command ran
(mars.go 306-332): non-empty stderr exits the process with status 4; failure
to create the archive file exits with status 4; failure to compress exits
with status 4; otherwise the iteration completes.  The identical code in
`generateSchemaBackup`, `generateSingleFileDataBackup` and
`generateSingleFileBackup` (mars.go 377-403, 447-473, 513-539) behaves the
same way. -/
def processBatch (o : BatchOutcome) : Except Nat Unit :=
  if o.stderr ≠ "" then .error 4
  else if !o.createOk then .error 4
  else if !o.compressOk then .error 4
  else .ok ()

/-- All dump invocations of one run in program order (across databases and
batches; the run is single-threaded).  `os.Exit` terminates the process, so
an error drops everything after it; on success the number of completed
invocations is returned. -/
def runBatches : List BatchOutcome → Except Nat Nat
  | [] => .ok 0
  | b :: bs =>
    match processBatch b with
    | .error c => .error c
    | .ok _ =>
      match runBatches bs with
      | .error c => .error c
      | .ok n => .ok (n + 1)

/-- The startup check of `GetOptions` (mars.go 800-803): if `os.Stat` reports
that the mysqldump binary does not exist, the process exits with status 1
before any backup work begins. -/
def mysqldumpPathCheck (found : Bool) : Except Nat Unit :=
  if found then .ok () else .error 1

/-! ## Output paths and timestamps (mars.go 281-284, 354-357, 424-427, 490-493) -/

/-- The filename timestamp (mars.go 282):
`strings.Replace(strings.Replace(start.Format("2006-01-02"), "-", "", -1), ":", "", -1)`,
i.e. the run-start date string with every dash and colon removed.  Dates are
modelled as their formatted `"2006-01-02"` strings. -/
def timestampOf (startDate : String) : String :=
  ⟨startDate.data.filter (fun c => !(c == '-' || c == ':'))⟩

/-- `path.Join` on the already-clean, non-empty components used here:
components joined with `"/"`. -/
def pathJoin (components : List String) : String :=
  String.intercalate "/" components

/-- The output file of one batch window of `generateTableBackup`
(mars.go 281-283): `now` is `t.Format("2006-01-02")` for `t := time.Now()`
taken inside the call, `start` is
`options.ExecutionStartDate.Format("2006-01-02")` fixed at run start. -/
def tableBackupFilename (outputDir now start db table : String) (index : Nat) : String :=
  pathJoin [outputDir, "daily", now, db ++ "-" ++ start,
    db ++ "_" ++ table ++ toString index ++ "_" ++ timestampOf start ++ ".sql"]

/-- The output file of `generateSchemaBackup` (mars.go 354-356):
`fmt.Sprintf("%s_%s_%s.sql", db, "SCHEMA", timestamp)`. -/
def schemaBackupFilename (outputDir now start db : String) : String :=
  pathJoin [outputDir, "daily", now, db ++ "-" ++ start,
    db ++ "_SCHEMA_" ++ timestampOf start ++ ".sql"]

/-- The output file of `generateSingleFileDataBackup` (mars.go 424-426):
`fmt.Sprintf("%s_%s_%s.sql", db, "DATA", timestamp)`. -/
def dataBackupFilename (outputDir now start db : String) : String :=
  pathJoin [outputDir, "daily", now, db ++ "-" ++ start,
    db ++ "_DATA_" ++ timestampOf start ++ ".sql"]

/-- The output file of `generateSingleFileBackup` (mars.go 490-492):
`fmt.Sprintf("%s_%s_%s.sql", db, "ALL", timestamp)`. -/
def singleFileBackupFilename (outputDir now start db : String) : String :=
  pathJoin [outputDir, "daily", now, db ++ "-" ++ start,
    db ++ "_ALL_" ++ timestampOf start ++ ".sql"]

/-! ## Helper lemmas -/

theorem removeDuplicatesAux_filter_step (x : String) (seen : List String)
    (xs : List String) :
    (xs.filter (fun y => decide (y ∉ seen))).filter (fun y => decide (y ≠ x)) =
      xs.filter (fun y => decide (y ∉ x :: seen)) := by
  rw [List.filter_filter]
  apply List.filter_congr
  intro a _
  simp [List.mem_cons, not_or, Bool.and_comm]

theorem removeDuplicatesAux_eq_keepFirst (l : List String) : ∀ seen : List String,
    removeDuplicatesAux seen l =
      keepFirstOccurrences (l.filter (fun y => decide (y ∉ seen))) := by
  induction l with
  | nil => intro seen; simp [removeDuplicatesAux, keepFirstOccurrences]
  | cons x xs ih =>
    intro seen
    by_cases h : x ∈ seen
    · simp [removeDuplicatesAux, h, ih]
    · have hfilter : (x :: xs).filter (fun y => decide (y ∉ seen)) =
          x :: xs.filter (fun y => decide (y ∉ seen)) := by
        simp [List.filter_cons, h]
      rw [removeDuplicatesAux, if_neg h, ih (x :: seen), hfilter,
        keepFirstOccurrences, removeDuplicatesAux_filter_step]

theorem mem_removeDuplicatesAux (x : String) (l : List String) :
    ∀ seen : List String, x ∈ removeDuplicatesAux seen l ↔ x ∈ l ∧ x ∉ seen := by
  induction l with
  | nil => intro seen; simp [removeDuplicatesAux]
  | cons y ys ih =>
    intro seen
    by_cases h : y ∈ seen
    · rw [removeDuplicatesAux, if_pos h, ih]
      constructor
      · rintro ⟨hx, hns⟩
        exact ⟨List.mem_cons_of_mem _ hx, hns⟩
      · rintro ⟨hx, hns⟩
        rcases List.mem_cons.mp hx with rfl | hx
        · exact absurd h hns
        · exact ⟨hx, hns⟩
    · rw [removeDuplicatesAux, if_neg h]
      simp only [List.mem_cons, ih (y :: seen), List.mem_cons, not_or]
      constructor
      · rintro (rfl | ⟨hx, hne, hns⟩)
        · exact ⟨Or.inl rfl, h⟩
        · exact ⟨Or.inr hx, hns⟩
      · rintro ⟨rfl | hx, hns⟩
        · exact Or.inl rfl
        · by_cases hxy : x = y
          · exact Or.inl hxy
          · exact Or.inr ⟨hx, hxy, hns⟩

theorem mem_removeDuplicates (x : String) (l : List String) :
    x ∈ removeDuplicates l ↔ x ∈ l := by
  rw [removeDuplicates, mem_removeDuplicatesAux]
  simp

theorem mem_difference (x : String) (a b : List String) :
    x ∈ difference a b ↔ x ∈ a ∧ x ∉ b := by
  simp [difference]

theorem generateTableBackupLoop_some_eq :
    ∀ (fuel : Nat) (b r c : Nat), 0 < b → c ≤ r → ∀ l : List Int,
      generateTableBackupLoop fuel (b : Int) (r : Int) (c : Int) = some l →
      l = (List.range ((r - c) / b + 1)).map (fun i => ((c + i * b : Nat) : Int)) := by
  intro fuel
  induction fuel with
  | zero =>
    intro b r c hb hc l h
    exact absurd h (by simp [generateTableBackupLoop])
  | succ fuel ih =>
    intro b r c hb hc l h
    have hcast : (c : Int) + (b : Int) = ((c + b : Nat) : Int) := by push_cast; ring
    rw [generateTableBackupLoop, if_pos (by exact_mod_cast hc), hcast] at h
    cases hrec : generateTableBackupLoop fuel (b : Int) (r : Int) ((c + b : Nat) : Int) with
    | none => rw [hrec] at h; simp at h
    | some l2 =>
      rw [hrec] at h
      simp only [Option.map_some', Option.some.injEq] at h
      subst h
      by_cases hcb : c + b ≤ r
      · have h2 := ih b r (c + b) hb hcb l2 hrec
        subst h2
        have hble : b ≤ r - c := by omega
        have hdiv : (r - c) / b = ((r - c) - b) / b + 1 := Nat.div_eq_sub_div hb hble
        have hsub : r - (c + b) = (r - c) - b := by omega
        have hn : (r - c) / b + 1 = (r - (c + b)) / b + 1 + 1 := by rw [hsub, hdiv]
        have hfun : ((fun i => ((c + i * b : Nat) : Int)) ∘ Nat.succ) =
            (fun i => ((c + b + i * b : Nat) : Int)) := by
          funext i
          simp only [Function.comp]
          congr 1
          rw [Nat.succ_mul]
          ring
        conv_rhs => rw [hn, List.range_succ_eq_map, List.map_cons, List.map_map, hfun]
        congr 1
        simp
      · have hl2 : l2 = [] := by
          cases fuel with
          | zero => exact absurd hrec (by simp [generateTableBackupLoop])
          | succ fuel2 =>
            rw [generateTableBackupLoop, if_neg (by push_cast; omega)] at hrec
            exact (Option.some.injEq _ _ ▸ hrec).symm
        subst hl2
        have hdiv : (r - c) / b = 0 := Nat.div_eq_of_lt (by omega)
        rw [hdiv]
        simp [List.range_succ]

theorem generateTableBackupLoop_total :
    ∀ (fuel b r c : Nat), 0 < b → r - c + 2 ≤ fuel →
      ∃ l, generateTableBackupLoop fuel (b : Int) (r : Int) (c : Int) = some l := by
  intro fuel
  induction fuel with
  | zero => intro b r c hb hf; omega
  | succ fuel ih =>
    intro b r c hb hf
    by_cases hcr : c ≤ r
    · have hcast : (c : Int) + (b : Int) = ((c + b : Nat) : Int) := by push_cast; ring
      by_cases hcb : c + b ≤ r
      · obtain ⟨l, hl⟩ := ih b r (c + b) hb (by omega)
        refine ⟨(c : Int) :: l, ?_⟩
        rw [generateTableBackupLoop, if_pos (by exact_mod_cast hcr), hcast, hl]
        rfl
      · cases fuel with
        | zero => omega
        | succ fuel2 =>
          refine ⟨[(c : Int)], ?_⟩
          rw [generateTableBackupLoop, if_pos (by exact_mod_cast hcr), hcast]
          rw [generateTableBackupLoop, if_neg (by push_cast; omega)]
          rfl
    · refine ⟨[], ?_⟩
      rw [generateTableBackupLoop, if_neg (by exact_mod_cast hcr)]

theorem generateTableBackupLoop_none_of_nonpos :
    ∀ (fuel : Nat) (b r c : Int), b ≤ 0 → c ≤ r →
      generateTableBackupLoop fuel b r c = none := by
  intro fuel
  induction fuel with
  | zero => intro b r c hb hc; rfl
  | succ fuel ih =>
    intro b r c hb hc
    rw [generateTableBackupLoop, if_pos hc, ih b r (c + b) hb (by omega)]
    rfl

theorem walkPaths_root_mem (p : String) (t : FTree) : p ∈ walkPaths p t := by
  cases t <;> simp [walkPaths]

theorem mem_ListFiles_root (searchDir : String) (tree : Option FTree)
    (h1 : searchDir ≠ "daily") (h2 : searchDir ≠ "weekly") (h3 : searchDir ≠ "monthly") :
    searchDir ∈ ListFiles searchDir tree := by
  have hkeep : (!(searchDir == "daily") && !(searchDir == "weekly") &&
      !(searchDir == "monthly")) = true := by
    simp [h1, h2, h3]
  cases tree with
  | none => simp [ListFiles, hkeep]
  | some t =>
    rw [ListFiles]
    exact List.mem_filter.mpr ⟨walkPaths_root_mem searchDir t, hkeep⟩

theorem append_monthly_ne (s : String) :
    s ++ "/monthly" ≠ "daily" ∧ s ++ "/monthly" ≠ "weekly" ∧ s ++ "/monthly" ≠ "monthly" := by
  refine ⟨?_, ?_, ?_⟩ <;>
    · intro h
      have h2 := congrArg String.length h
      rw [String.length_append] at h2
      have e1 : ("/monthly" : String).length = 8 := by decide
      have e2 : ("daily" : String).length = 5 := by decide
      have e3 : ("weekly" : String).length = 6 := by decide
      have e4 : ("monthly" : String).length = 7 := by decide
      omega

theorem listFiles_monthly_ne_nil (outputDir : String) (tree : Option FTree) :
    ListFiles (outputDir ++ "/monthly") tree ≠ [] := by
  intro h0
  obtain ⟨h1, h2, h3⟩ := append_monthly_ne outputDir
  have hmem := mem_ListFiles_root (outputDir ++ "/monthly") tree h1 h2 h3
  rw [h0] at hmem
  exact List.not_mem_nil _ hmem

theorem backupRotation_eq_self (m w d : Int) (outputDir today : String) (fs : BackupFS) :
    BackupRotation m w d outputDir today fs = fs := by
  unfold BackupRotation
  by_cases hm : 0 < m
  · have hne : ListFiles (outputDir ++ "/monthly")
        (some (FTree.dir "monthly" fs.monthly)) ≠ [] :=
      listFiles_monthly_ne_nil outputDir _
    simp [if_pos hm, hne]
  · simp [if_neg hm]

theorem runBatches_prefix_error (pre : List BatchOutcome) (bad : BatchOutcome)
    (post : List BatchOutcome) (hpre : ∀ x ∈ pre, processBatch x = .ok ())
    (hbad : processBatch bad = .error 4) :
    runBatches (pre ++ bad :: post) = .error 4 := by
  induction pre with
  | nil => simp [runBatches, hbad]
  | cons x xs ih =>
    have hx := hpre x (List.mem_cons_self x xs)
    have hxs : ∀ y ∈ xs, processBatch y = .ok () := fun y hy =>
      hpre y (List.mem_cons_of_mem _ hy)
    simp [List.cons_append, runBatches, hx, ih hxs]

/-! ## Claim theorems -/

/-- C1: the per-database sizing decision of `main` is total and matches the
decision table: below or at the threshold it is `SingleFile` when
`forceSplit` is off and `SplitSchemaData` when it is on; above the threshold
it is `PerTableBatched` regardless of `forceSplit`; and the three
decision-table conditions partition the input space (each input satisfies
at least one, and no two at once). -/
theorem plan_decision_table (forceSplit : Bool) (t d : Int) :
    (plan forceSplit t d =
      some (if t ≤ d then
              (if forceSplit then .SplitSchemaData else .SingleFile)
            else .PerTableBatched)) ∧
    ((forceSplit = false ∧ t ≤ d) ∨ (forceSplit = true ∧ t ≤ d) ∨ t > d) ∧
    ¬((forceSplit = false ∧ t ≤ d) ∧ (forceSplit = true ∧ t ≤ d)) ∧
    ¬((forceSplit = false ∧ t ≤ d) ∧ t > d) ∧
    ¬((forceSplit = true ∧ t ≤ d) ∧ t > d) := by
  refine ⟨?_, ?_, ?_, ?_, ?_⟩ <;>
    cases forceSplit <;> by_cases h : t ≤ d <;>
      simp [plan, h] <;> omega

/-- C6: `removeDuplicates` keeps exactly the first occurrence of each name in
first-seen order (it equals the spec-side `keepFirstOccurrences` on every
list), and on `["a", "b", "a"]` it yields `["a", "b"]`. -/
theorem removeDuplicates_keeps_first_occurrences :
    (∀ l : List String, removeDuplicates l = keepFirstOccurrences l) ∧
    removeDuplicates ["a", "b", "a"] = ["a", "b"] := by
  constructor
  · intro l
    rw [removeDuplicates, removeDuplicatesAux_eq_keepFirst]
    simp
  · decide

/-- C2: for every table row count `r ≥ 0` (modelled as a natural number cast
to the Go `int`) and batch size `b > 0`, the batching loop of
`generateTableBackup` terminates and produces exactly `r / b + 1` (floor
division) batch-window dumps, at offsets `0, b, 2b, ...`; with `r = 0` the
count is `0 / b + 1 = 1`, a single empty-range dump. -/
theorem generateTableBackup_batch_count (r b : Nat) (hb : 0 < b) :
    (∃ fuel l, generateTableBackupLoop fuel (b : Int) (r : Int) 0 = some l) ∧
    (∀ (fuel : Nat) (l : List Int),
        generateTableBackupLoop fuel (b : Int) (r : Int) 0 = some l →
        l.length = r / b + 1 ∧
        l = (List.range (r / b + 1)).map (fun i => ((i * b : Nat) : Int))) := by
  constructor
  · obtain ⟨l, hl⟩ := generateTableBackupLoop_total (r + 2) b r 0 hb (by omega)
    exact ⟨r + 2, l, by simpa using hl⟩
  · intro fuel l hl
    have h := generateTableBackupLoop_some_eq fuel b r 0 hb (Nat.zero_le r) l
      (by simpa using hl)
    simp only [Nat.sub_zero, Nat.zero_add] at h
    subst h
    simp

/-- C2 witness: at row count 5 and batch size 2 the loop terminates and every
successful run has exactly 5 / 2 + 1 = 3 windows. -/
theorem generateTableBackup_batch_count_witness :
    0 < 2 ∧
    ((∃ fuel l, generateTableBackupLoop fuel ((2 : Nat) : Int) ((5 : Nat) : Int) 0 = some l) ∧
     (∀ (fuel : Nat) (l : List Int),
        generateTableBackupLoop fuel ((2 : Nat) : Int) ((5 : Nat) : Int) 0 = some l →
        l.length = 5 / 2 + 1 ∧
        l = (List.range (5 / 2 + 1)).map (fun i => ((i * 2 : Nat) : Int)))) :=
  ⟨by decide, generateTableBackup_batch_count 5 2 (by decide)⟩

/-- C10: for row count `r ≥ 0` the batching loop of `generateTableBackup`
terminates exactly when `BatchSize > 0`: with a positive batch size some fuel
suffices, and with `BatchSize ≤ 0` the loop condition `counter <= rowCount`
never becomes false, so no fuel ever suffices (the loop runs forever). -/
theorem generateTableBackupLoop_terminates_iff (b r : Int) (hr : 0 ≤ r) :
    (∃ fuel l, generateTableBackupLoop fuel b r 0 = some l) ↔ 0 < b := by
  constructor
  · rintro ⟨fuel, l, hl⟩
    by_contra hb
    push_neg at hb
    rw [generateTableBackupLoop_none_of_nonpos fuel b r 0 hb hr] at hl
    exact Option.noConfusion hl
  · intro hb
    obtain ⟨l, hl⟩ :=
      generateTableBackupLoop_total (r.toNat + 2) b.toNat r.toNat 0 (by omega) (by omega)
    refine ⟨r.toNat + 2, l, ?_⟩
    rw [Int.toNat_of_nonneg hr, Int.toNat_of_nonneg (le_of_lt hb)] at hl
    simpa using hl

/-- C10 witness: at row count 5 and batch size -1 the loop never terminates
(no fuel yields a result), matching `0 < -1` being false. -/
theorem generateTableBackupLoop_terminates_iff_witness :
    (0 : Int) ≤ 5 ∧
    ((∃ fuel l, generateTableBackupLoop fuel (-1) 5 0 = some l) ↔ (0 : Int) < -1) :=
  ⟨by decide, generateTableBackupLoop_terminates_iff (-1) 5 (by decide)⟩

/-- C5: in all-databases mode the resolved target list consists of exactly
the server databases that are neither in the user exclusion list nor one of
the system schemas `information_schema` / `performance_schema` (which are
excluded regardless of the user exclusion list), and on server databases
`[mysql, test, app]` with user exclusion `[test]` the result is
`[mysql, app]`. -/
theorem resolveAllDatabases_spec :
    (∀ (serverDbs userExcluded : List String) (x : String),
        x ∈ resolveAllDatabases serverDbs userExcluded ↔
          x ∈ serverDbs ∧ x ∉ userExcluded ∧
            x ≠ "information_schema" ∧ x ≠ "performance_schema") ∧
    resolveAllDatabases ["mysql", "test", "app"] ["test"] = ["mysql", "app"] := by
  constructor
  · intro serverDbs userExcluded x
    rw [resolveAllDatabases, mem_difference, mem_removeDuplicates]
    simp only [List.mem_append, List.mem_cons, List.not_mem_nil, or_false, not_or]
  · decide

/-- C9: `ListFiles` always includes the walked root path itself whenever that
path differs from the bare strings `"daily"`, `"weekly"` and `"monthly"` (its
filter compares full paths only against those bare strings), and a tier path
of the form `outputDir ++ "/monthly"` never equals any of them, so
`ListFiles` of a tier directory is never empty; consequently the
zero-snapshot promotion branch of `BackupRotation` is never taken, and the
rotation returns the filesystem unchanged. -/
theorem listFiles_root_included_promotion_dead :
    (∀ (searchDir : String) (tree : Option FTree),
        searchDir ≠ "daily" → searchDir ≠ "weekly" → searchDir ≠ "monthly" →
        searchDir ∈ ListFiles searchDir tree) ∧
    (∀ (outputDir : String) (tree : Option FTree),
        ListFiles (outputDir ++ "/monthly") tree ≠ []) ∧
    (∀ (m w d : Int) (outputDir today : String) (fs : BackupFS),
        BackupRotation m w d outputDir today fs = fs) :=
  ⟨mem_ListFiles_root, listFiles_monthly_ne_nil, backupRotation_eq_self⟩

/-- C9 witness: the walked tier path `/backups/monthly` of an existing, empty
monthly tier is a member of its own `ListFiles` result. -/
theorem listFiles_root_included_promotion_dead_witness :
    "/backups/monthly" ∈ ListFiles "/backups/monthly" (some (FTree.dir "monthly" [])) :=
  listFiles_root_included_promotion_dead.1 "/backups/monthly"
    (some (FTree.dir "monthly" [])) (by decide) (by decide) (by decide)

/-- C3: the rotation bound fails as implemented: with daily retention 5 and
six dated snapshot directories in the daily tier, `BackupRotation` deletes
nothing — the daily tier still holds six snapshots afterwards, exceeding the
retention count.  The pruning step described by the spec is absent (the
weekly and daily branches of `BackupRotation` have empty bodies and no
deletion is performed anywhere in it). -/
theorem backupRotation_does_not_prune :
    (BackupRotation 1 2 5 "/backups" "2026-10-12"
        ⟨[FTree.dir "2026-10-07" [], FTree.dir "2026-10-08" [], FTree.dir "2026-10-09" [],
          FTree.dir "2026-10-10" [], FTree.dir "2026-10-11" [], FTree.dir "2026-10-12" []],
          [], []⟩).daily.length = 6 ∧ 5 < 6 :=
  ⟨rfl, by decide⟩

/-- C4: the bootstrap promotion fails as implemented: monthly retention is
`1 > 0` and the monthly tier holds zero snapshots, yet `BackupRotation` does
not copy the day's daily snapshot into the monthly tier — the monthly tier is
still empty afterwards, because `ListFiles` of the existing empty monthly
directory returns the directory path itself, so its length is never zero. -/
theorem backupRotation_skips_bootstrap_promotion :
    (BackupRotation 1 2 5 "/backups" "2026-10-12"
        ⟨[FTree.dir "2026-10-12" [FTree.file "db_ALL_20261012.sql.tar.gz"]],
          [], []⟩).monthly = [] ∧
    ListFiles ("/backups" ++ "/monthly") (some (FTree.dir "monthly" [])) =
      ["/backups/monthly"] :=
  ⟨rfl, rfl⟩

/-- C7: a dump invocation with non-empty stderr exits the run with status 4,
and so do a failed archive creation and a failed compression; any such
failure aborts the run with every later batch left unprocessed (the result
does not depend on what follows the failing batch); the missing-mysqldump
startup check exits with status 1; and the statuses 4 and 1 are non-zero and
distinct from each other. -/
theorem dumpFailure_fatal_distinct_status :
    (∀ o : BatchOutcome, o.stderr ≠ "" → processBatch o = .error 4) ∧
    (∀ o : BatchOutcome, o.stderr = "" → (o.createOk = false ∨ o.compressOk = false) →
        processBatch o = .error 4) ∧
    (∀ (pre : List BatchOutcome) (bad : BatchOutcome) (post post2 : List BatchOutcome),
        (∀ x ∈ pre, processBatch x = .ok ()) → processBatch bad = .error 4 →
        runBatches (pre ++ bad :: post) = .error 4 ∧
        runBatches (pre ++ bad :: post) = runBatches (pre ++ bad :: post2)) ∧
    mysqldumpPathCheck false = .error 1 ∧
    (4 : Nat) ≠ 0 ∧ (1 : Nat) ≠ 0 ∧ (4 : Nat) ≠ 1 := by
  refine ⟨?_, ?_, ?_, rfl, by decide, by decide, by decide⟩
  · intro o h
    simp [processBatch, h]
  · intro o h hc
    cases hcreate : o.createOk <;> rcases hc with hc | hc <;>
      simp [processBatch, h, hc, hcreate]
  · intro pre bad post post2 hpre hbad
    exact ⟨runBatches_prefix_error pre bad post hpre hbad,
      (runBatches_prefix_error pre bad post hpre hbad).trans
        (runBatches_prefix_error pre bad post2 hpre hbad).symm⟩

/-- C7 witness: in a concrete run of three invocations whose second reports
`Access denied`, the run exits with status 4 and the third invocation is
never reached. -/
theorem dumpFailure_fatal_distinct_status_witness :
    runBatches [⟨"", true, true⟩, ⟨"Access denied", true, true⟩, ⟨"", true, true⟩]
      = .error 4 := by
  have h := dumpFailure_fatal_distinct_status.2.2.1 [⟨"", true, true⟩]
      ⟨"Access denied", true, true⟩ [⟨"", true, true⟩] []
      (by intro x hx; simp at hx; subst hx; rfl) (by rfl)
  exact h.1

/-- C8 counterexample: a table batch file created when the current date is
2026-10-13 in a run started on 2026-10-12 is NOT placed under
`daily/{runDate}/{db}-{runDate}` — its two date components differ, the
`daily` component holding the file-creation date. -/
theorem tableBackupFilename_crosses_midnight :
    tableBackupFilename "/out" "2026-10-13" "2026-10-12" "db" "t" 1 ≠
      pathJoin ["/out", "daily", "2026-10-12", "db-2026-10-12", "db_t1_20261012.sql"] ∧
    tableBackupFilename "/out" "2026-10-13" "2026-10-12" "db" "t" 1 =
      "/out/daily/2026-10-13/db-2026-10-12/db_t1_20261012.sql" :=
  ⟨by decide, by decide⟩

/-- C8 (amended): in every generator the `{db}-{date}` directory component
and the timestamp embedded in the filename use the execution start date fixed
once at run start (the same value across all files and generators of the
run), while the `daily/{date}` component uses the current date at the moment
the file is created — so each file lands under
`{outputDir}/daily/{runDate}/{db}-{runDate}/` exactly when its creation date
equals the run-start date. -/
theorem backupRun_layout :
    (∀ (outputDir now start db table : String) (idx : Nat),
        tableBackupFilename outputDir now start db table idx =
          pathJoin [outputDir, "daily", now, db ++ "-" ++ start,
            db ++ "_" ++ table ++ toString idx ++ "_" ++ timestampOf start ++ ".sql"]) ∧
    (∀ outputDir now start db : String,
        schemaBackupFilename outputDir now start db =
          pathJoin [outputDir, "daily", now, db ++ "-" ++ start,
            db ++ "_SCHEMA_" ++ timestampOf start ++ ".sql"]) ∧
    (∀ outputDir now start db : String,
        dataBackupFilename outputDir now start db =
          pathJoin [outputDir, "daily", now, db ++ "-" ++ start,
            db ++ "_DATA_" ++ timestampOf start ++ ".sql"]) ∧
    (∀ outputDir now start db : String,
        singleFileBackupFilename outputDir now start db =
          pathJoin [outputDir, "daily", now, db ++ "-" ++ start,
            db ++ "_ALL_" ++ timestampOf start ++ ".sql"]) ∧
    timestampOf "2026-10-12" = "20261012" :=
  ⟨fun _ _ _ _ _ _ => rfl, fun _ _ _ _ => rfl, fun _ _ _ _ => rfl,
    fun _ _ _ _ => rfl, by decide⟩

end Mars
